import Mathlib

/-!
# Verification of the RAG backend core (chunking / embedding / retrieval pipeline)

Shallow embedding of the repository's Python source into Lean 4.

Conventions of the embedding:
* Python `str` is modelled as `List Char` (`Str` below); string slicing,
  `split`, `strip` and the regexes used by the source are modelled directly
  over character lists.
* Python whitespace (`str.strip`, regex `\s`) is modelled by its ASCII part
  (space, tab, newline, carriage return, vertical tab, form feed); the
  source's behaviour does not depend on the distinction for any claim below.
* Python `int` values that are non-negative throughout the source
  (`chunk_size`, `chunk_overlap`, lengths, counts) are modelled as `Nat`.
* The unimplemented (placeholder) bodies of `EmbeddingGenerator` and
  `VectorStore` are translated exactly as written in the source: they
  return empty vectors / empty result lists and never raise.
* Fallible pipeline entry points return `Except RagError _`; the error
  taxonomy of the specification is reproduced in `RagError` so that the
  absence of those errors in the translated code can be stated.
-/

/-- Python `str` is modelled as a list of characters. -/
abbrev Str := List Char

/-- ASCII fragment of Python's whitespace (`str.strip`, regex `\s`):
space, tab, newline, carriage return, vertical tab, form feed. -/
def pyWS (c : Char) : Bool :=
  c = ' ' || c = '\t' || c = '\n' || c = '\r' || c = Char.ofNat 11 || c = Char.ofNat 12

/-- Python `str.strip()`: drop leading and trailing whitespace. -/
def pyStrip (l : Str) : Str :=
  ((l.dropWhile pyWS).reverse.dropWhile pyWS).reverse

/-- `text.split('\n\n')` — split on leftmost non-overlapping occurrences of
the two-character separator, as Python `str.split` does. -/
def splitNN : Str → List Str
  | [] => [[]]
  | '\n' :: '\n' :: rest => [] :: splitNN rest
  | c :: rest =>
    match splitNN rest with
    | [] => [[c]]
    | h :: t => (c :: h) :: t

/-- Does the list start with a whitespace character? -/
def firstIsWS : Str → Bool
  | [] => false
  | c :: _ => pyWS c

/-- Does the list start with an ASCII uppercase letter (`[A-Z]`)? -/
def firstIsUpper : Str → Bool
  | [] => false
  | c :: _ => c.isUpper

/-- Scanner for `re.split(r'(?<=[.!?])\s+(?=[A-Z])', text)`.

A split point of that regex is a maximal whitespace run that is preceded by
one of `.`, `!`, `?` and followed by an ASCII uppercase letter (a shorter
sub-run never matches because the lookahead would then see another
whitespace character).  `skip = true` while the matched whitespace run is
being discarded. -/
def sentenceScan (skip : Bool) (acc : Str) : Str → List Str
  | [] => [acc.reverse]
  | c :: rest =>
    if skip then
      if pyWS c then sentenceScan true acc rest
      else sentenceScan false [c] rest
    else
      if (c = '.' || c = '!' || c = '?') && firstIsWS rest
          && firstIsUpper (rest.dropWhile pyWS) then
        (c :: acc).reverse :: sentenceScan true [] rest
      else sentenceScan false (c :: acc) rest

/-- `TextChunker._split_into_sentences`: regex split, then
`[s.strip() for s in sentences if s.strip()]`. -/
def split_into_sentences (l : Str) : List Str :=
  (((sentenceScan false [] l).map pyStrip)).filter (fun s => !s.isEmpty)

/-- Configuration of `TextChunker` (`chunk_size`, `chunk_overlap`). -/
structure TextChunker where
  chunk_size : Nat
  chunk_overlap : Nat
deriving DecidableEq

/-- The chunking state is `(chunks reversed, current_chunk)`; `pushCur`
models the source's recurring `if current_chunk: chunks.append(current_chunk)`. -/
def pushCur (st : List Str × Str) : List Str :=
  if st.2 = [] then st.1 else st.2 :: st.1

/-- One iteration of the inner `for sentence in sentences` loop of
`TextChunker.chunk_text`. -/
def procSent (size : Nat) (st : List Str × Str) (s : Str) : List Str × Str :=
  if st.2.length + s.length + 1 ≤ size then
    if st.2 = [] then (st.1, s) else (st.1, st.2 ++ ' ' :: s)
  else (pushCur st, s)

/-- One iteration of the outer `for paragraph in paragraphs` loop of
`TextChunker.chunk_text` (`pyStrip p0` is the loop's
`paragraph = paragraph.strip()`). -/
def procPara (size : Nat) (st : List Str × Str) (p0 : Str) : List Str × Str :=
  if pyStrip p0 = [] then st
  else if st.2.length + (pyStrip p0).length + 2 ≤ size then
    if st.2 = [] then (st.1, pyStrip p0)
    else (st.1, st.2 ++ '\n' :: '\n' :: pyStrip p0)
  else if size < (pyStrip p0).length then
    (split_into_sentences (pyStrip p0)).foldl (procSent size) (pushCur st, [])
  else (pushCur st, pyStrip p0)

/-- Body of `TextChunker.chunk_text` up to (excluding) the overlap step:
the local variable `chunks` just before `_add_overlap` may be applied. -/
def rawChunks (tc : TextChunker) (text : Str) : List Str :=
  if pyStrip text = [] then []
  else (pushCur ((splitNN text).foldl (procPara tc.chunk_size) ([], []))).reverse

/-- `prev_chunk[-overlap:] if len(prev_chunk) > overlap else prev_chunk`
(the overlap text taken from the end of the previous chunk). -/
def overlapText (ov : Nat) (prev : Str) : Str :=
  if ov < prev.length then prev.drop (prev.length - ov) else prev

/-- The `for i in range(1, len(chunks))` loop of `TextChunker._add_overlap`:
`prev` is `chunks[i-1]` of the argument list. -/
def add_overlap_go (ov : Nat) (prev : Str) : List Str → List Str
  | [] => []
  | c :: cs => (overlapText ov prev ++ ' ' :: c) :: add_overlap_go ov c cs

/-- `TextChunker._add_overlap` (the source only calls it on lists of length
at least 2; on `[]` we return `[]`, a case the source never reaches). -/
def add_overlap (ov : Nat) (chunks : List Str) : List Str :=
  match chunks with
  | [] => []
  | c0 :: rest => c0 :: add_overlap_go ov c0 rest

/-- `TextChunker.chunk_text` (async in the source, but purely functional). -/
def chunk_text (tc : TextChunker) (text : Str) : List Str :=
  if 0 < tc.chunk_overlap ∧ 1 < (rawChunks tc text).length then
    add_overlap tc.chunk_overlap (rawChunks tc text)
  else rawChunks tc text

/-- `TextChunker.get_chunk_count`. -/
def get_chunk_count (tc : TextChunker) (text : Str) : Nat :=
  if text = [] then 0 else max 1 (text.length / tc.chunk_size)

/-- Error taxonomy of the specification (§7).  The translated source code
never constructs any of these values; the type exists so that "fails with
error E" is statable about the pipeline entry points. -/
inductive RagError where
  | EmptyDocument
  | ModelUnavailable
  | DimensionMismatch
  | StoreFailure
  | InvalidQuery
deriving DecidableEq

/-- `EmbeddingGenerator.generate_embedding` — the source body is
`return []` (placeholder); vector components are modelled as `Rat`. -/
def generate_embedding (_text : Str) : List Rat := []

/-- `EmbeddingGenerator.generate_embeddings_batch` — the source body is
`return [[] for _ in texts]`. -/
def generate_embeddings_batch (texts : List Str) : List (List Rat) :=
  texts.map (fun _ => [])

/-- One entry of the result list documented for
`VectorStore.similarity_search`. -/
structure SearchHit where
  chunk_id : Str
  content : Str
  score : Rat
deriving DecidableEq

/-- `VectorStore.similarity_search` — the source body is `return []`
(placeholder). -/
def similarity_search (_query_embedding : List Rat) (_top_k : Nat) : List SearchHit := []

/-- `VectorStore.store_embeddings` — the source body is `pass`. -/
def store_embeddings (_document_id : Str) (_chunks : List Str)
    (_embeddings : List (List Rat)) : Unit := ()

/-- The dict returned by `DocumentService.process_document`. -/
structure ProcessResult where
  document_id : Str
  chunks_created : Nat
  status : Str
deriving DecidableEq

/-- The chunker built in `DocumentService.__init__`:
`TextChunker(chunk_size=1000, chunk_overlap=200)`. -/
def documentServiceChunker : TextChunker := ⟨1000, 200⟩

/-- `DocumentService.process_document`: chunk, embed in batch, store,
return a success dict.  No branch of the translated source produces a
`RagError`: every callee is total (the placeholders return normally), so
the `try`/`except` re-raise is unreachable. -/
def process_document (tc : TextChunker) (text : Str) (document_id : Str) :
    Except RagError ProcessResult :=
  let chunks := chunk_text tc text
  let embeddings := generate_embeddings_batch chunks
  let _ := store_embeddings document_id chunks embeddings
  .ok ⟨document_id, chunks.length, "success".toList⟩

/-- The dict returned by `DocumentService.query_documents`. -/
structure QueryResult where
  query : Str
  results : List SearchHit
  answer : Str
deriving DecidableEq

/-- The placeholder answer string of `DocumentService.query_documents`. -/
def todoAnswer : Str := "TODO: Generate answer using LLM with retrieved chunks".toList

/-- `DocumentService.query_documents`: embed the question, search, return a
dict.  As with `process_document`, no branch produces a `RagError`. -/
def query_documents (question : Str) (max_results : Nat) :
    Except RagError QueryResult :=
  let query_embedding := generate_embedding question
  let results := similarity_search query_embedding max_results
  .ok ⟨question, results, todoAnswer⟩

/-- The pydantic validation of `QueryRequest`
(`question: min_length=1`, `max_results: ge=1, le=20`). -/
def queryRequestValid (question : Str) (max_results : Nat) : Prop :=
  1 ≤ question.length ∧ 1 ≤ max_results ∧ max_results ≤ 20

instance (q : Str) (k : Nat) : Decidable (queryRequestValid q k) := by
  unfold queryRequestValid; infer_instance

/-! ## Helper lemmas -/

/-- A fold preserves an invariant `P` when each step does, given that every
folded element satisfies `R`. -/
theorem foldl_preserve {σ α : Type} (f : σ → α → σ) (P : σ → Prop) (R : α → Prop)
    (hstep : ∀ st a, P st → R a → P (f st a)) :
    ∀ (l : List α) (st : σ), P st → (∀ a ∈ l, R a) → P (l.foldl f st) := by
  intro l
  induction l with
  | nil => intro st h _; exact h
  | cons a l ih =>
    intro st h hl
    simp only [List.foldl_cons]
    exact ih (f st a) (hstep st a h (hl a (by simp)))
      (fun x hx => hl x (by simp [hx]))

/-- `c` is one of the sentences the source's splitter produces from one of
the (stripped) paragraphs of `text`. -/
abbrev SentOf (text c : Str) : Prop :=
  ∃ p ∈ splitNN text, c ∈ split_into_sentences (pyStrip p)

/-- A chunk either fits in `size` characters or is a single sentence of the
input (the only chunks the algorithm emits). -/
abbrev OkChunk (size : Nat) (text : Str) (c : Str) : Prop :=
  c.length ≤ size ∨ SentOf text c

/-- Loop invariant for the size bound: every flushed chunk and the running
buffer satisfy `OkChunk`. -/
def InvSize (size : Nat) (text : Str) (st : List Str × Str) : Prop :=
  (∀ c ∈ st.1, OkChunk size text c) ∧ OkChunk size text st.2

/-- Everything in `pushCur st` satisfies `P` when both components do. -/
theorem pushCur_forall {P : Str → Prop} (st : List Str × Str)
    (h1 : ∀ c ∈ st.1, P c) (h2 : st.2 = [] ∨ P st.2) :
    ∀ c ∈ pushCur st, P c := by
  intro c hc
  unfold pushCur at hc
  by_cases hemp : st.2 = []
  · exact h1 c (by simpa [hemp] using hc)
  · rcases List.mem_cons.mp (by simpa [hemp] using hc) with rfl | hc
    · exact h2.resolve_left hemp
    · exact h1 c hc

theorem procSent_size (size : Nat) (text : Str) (st : List Str × Str) (s : Str)
    (h : InvSize size text st) (hs : SentOf text s) :
    InvSize size text (procSent size st s) := by
  obtain ⟨h1, h2⟩ := h
  unfold procSent
  by_cases hfit : st.2.length + s.length + 1 ≤ size
  · rw [if_pos hfit]
    by_cases hemp : st.2 = []
    · rw [if_pos hemp]
      exact ⟨h1, Or.inr hs⟩
    · rw [if_neg hemp]
      refine ⟨h1, Or.inl ?_⟩
      simp only [List.length_append, List.length_cons]
      omega
  · rw [if_neg hfit]
    exact ⟨pushCur_forall st h1 (Or.inr h2), Or.inr hs⟩

theorem procPara_size (size : Nat) (text : Str) (st : List Str × Str) (p0 : Str)
    (hp0 : p0 ∈ splitNN text) (h : InvSize size text st) :
    InvSize size text (procPara size st p0) := by
  obtain ⟨h1, h2⟩ := h
  unfold procPara
  by_cases hpe : pyStrip p0 = []
  · rw [if_pos hpe]
    exact ⟨h1, h2⟩
  · rw [if_neg hpe]
    by_cases hfit : st.2.length + (pyStrip p0).length + 2 ≤ size
    · rw [if_pos hfit]
      by_cases hemp : st.2 = []
      · rw [if_pos hemp]
        refine ⟨h1, Or.inl ?_⟩
        show (pyStrip p0).length ≤ size
        have h0 : st.2.length = 0 := by rw [hemp]; rfl
        omega
      · rw [if_neg hemp]
        refine ⟨h1, Or.inl ?_⟩
        show (st.2 ++ '\n' :: '\n' :: pyStrip p0).length ≤ size
        simp only [List.length_append, List.length_cons]
        omega
    · rw [if_neg hfit]
      by_cases hbig : size < (pyStrip p0).length
      · rw [if_pos hbig]
        exact foldl_preserve _ _ (SentOf text)
          (fun st' s h' hs => procSent_size size text st' s h' hs)
          _ _ ⟨pushCur_forall st h1 (Or.inr h2), Or.inl (Nat.zero_le _)⟩
          (fun s hs => ⟨p0, hp0, hs⟩)
      · rw [if_neg hbig]
        refine ⟨pushCur_forall st h1 (Or.inr h2), Or.inl ?_⟩
        show (pyStrip p0).length ≤ size
        omega

theorem rawChunks_size (tc : TextChunker) (text : Str) :
    ∀ c ∈ rawChunks tc text, OkChunk tc.chunk_size text c := by
  intro c hc
  unfold rawChunks at hc
  by_cases hst : pyStrip text = []
  · rw [if_pos hst] at hc
    simp at hc
  · rw [if_neg hst, List.mem_reverse] at hc
    have hinv : InvSize tc.chunk_size text
        ((splitNN text).foldl (procPara tc.chunk_size) ([], [])) :=
      foldl_preserve _ _ (· ∈ splitNN text)
        (fun st a h ha => procPara_size tc.chunk_size text st a ha h)
        _ _ ⟨by simp, Or.inl (Nat.zero_le _)⟩ (fun a ha => ha)
    exact pushCur_forall _ hinv.1 (Or.inr hinv.2) c hc

/-- A chunk contains at least one non-whitespace character. -/
abbrev HasInk (c : Str) : Prop := ∃ ch ∈ c, pyWS ch = false

theorem dropWhile_ink (l : Str) (h : l.dropWhile pyWS ≠ []) :
    ∃ ch ∈ l.dropWhile pyWS, pyWS ch = false := by
  induction l with
  | nil => simp at h
  | cons c t ih =>
    by_cases hc : pyWS c
    · simp only [List.dropWhile_cons, hc, if_true] at h ⊢
      exact ih h
    · simp only [List.dropWhile_cons, hc, if_false]
      exact ⟨c, by simp, by simpa using hc⟩

theorem pyStrip_ink (l : Str) (h : pyStrip l ≠ []) : HasInk (pyStrip l) := by
  unfold pyStrip at h ⊢
  have h2 : (l.dropWhile pyWS).reverse.dropWhile pyWS ≠ [] := by
    intro heq
    rw [heq] at h
    simp at h
  obtain ⟨ch, hmem, hink⟩ := dropWhile_ink (l.dropWhile pyWS).reverse h2
  exact ⟨ch, by simpa using hmem, hink⟩

theorem sent_ink (x s : Str) (hs : s ∈ split_into_sentences x) : HasInk s := by
  unfold split_into_sentences at hs
  rw [List.mem_filter] at hs
  obtain ⟨hmap, hne⟩ := hs
  obtain ⟨y, _, rfl⟩ := List.mem_map.mp hmap
  apply pyStrip_ink
  simpa using hne

/-- Loop invariant for non-blank chunks. -/
def InvInk (st : List Str × Str) : Prop :=
  (∀ c ∈ st.1, HasInk c) ∧ (st.2 = [] ∨ HasInk st.2)

theorem procSent_ink (size : Nat) (st : List Str × Str) (s : Str)
    (h : InvInk st) (hs : HasInk s) : InvInk (procSent size st s) := by
  obtain ⟨h1, h2⟩ := h
  unfold procSent
  by_cases hfit : st.2.length + s.length + 1 ≤ size
  · rw [if_pos hfit]
    by_cases hemp : st.2 = []
    · rw [if_pos hemp]
      exact ⟨h1, Or.inr hs⟩
    · rw [if_neg hemp]
      obtain ⟨ch, hm, hf⟩ := h2.resolve_left hemp
      exact ⟨h1, Or.inr ⟨ch, by simp [hm], hf⟩⟩
  · rw [if_neg hfit]
    exact ⟨pushCur_forall st h1 h2, Or.inr hs⟩

theorem procPara_ink (size : Nat) (st : List Str × Str) (p0 : Str)
    (h : InvInk st) : InvInk (procPara size st p0) := by
  obtain ⟨h1, h2⟩ := h
  unfold procPara
  by_cases hpe : pyStrip p0 = []
  · rw [if_pos hpe]
    exact ⟨h1, h2⟩
  · rw [if_neg hpe]
    by_cases hfit : st.2.length + (pyStrip p0).length + 2 ≤ size
    · rw [if_pos hfit]
      by_cases hemp : st.2 = []
      · rw [if_pos hemp]
        exact ⟨h1, Or.inr (pyStrip_ink p0 hpe)⟩
      · rw [if_neg hemp]
        obtain ⟨ch, hm, hf⟩ := h2.resolve_left hemp
        exact ⟨h1, Or.inr ⟨ch, by simp [hm], hf⟩⟩
    · rw [if_neg hfit]
      by_cases hbig : size < (pyStrip p0).length
      · rw [if_pos hbig]
        exact foldl_preserve _ _ HasInk
          (fun st' s h' hs => procSent_ink size st' s h' hs)
          _ _ ⟨pushCur_forall st h1 h2, Or.inl rfl⟩
          (fun s hs => sent_ink _ s hs)
      · rw [if_neg hbig]
        exact ⟨pushCur_forall st h1 h2, Or.inr (pyStrip_ink p0 hpe)⟩

theorem rawChunks_ink (tc : TextChunker) (text : Str) :
    ∀ c ∈ rawChunks tc text, HasInk c := by
  intro c hc
  unfold rawChunks at hc
  by_cases hst : pyStrip text = []
  · rw [if_pos hst] at hc
    simp at hc
  · rw [if_neg hst, List.mem_reverse] at hc
    have hinv : InvInk ((splitNN text).foldl (procPara tc.chunk_size) ([], [])) :=
      foldl_preserve _ _ (fun _ => True)
        (fun st a h _ => procPara_ink tc.chunk_size st a h)
        _ _ ⟨by simp, Or.inl rfl⟩ (fun _ _ => trivial)
    exact pushCur_forall _ hinv.1 hinv.2 c hc

theorem add_overlap_go_ink (ov : Nat) (l : List Str)
    (hl : ∀ x ∈ l, HasInk x) :
    ∀ (prev : Str), ∀ c ∈ add_overlap_go ov prev l, HasInk c := by
  induction l with
  | nil => intro prev c hc; simp [add_overlap_go] at hc
  | cons x xs ih =>
    intro prev c hc
    rcases List.mem_cons.mp hc with rfl | hc
    · obtain ⟨ch, hm, hf⟩ := hl x (by simp)
      exact ⟨ch, by simp [hm], hf⟩
    · exact ih (fun y hy => hl y (by simp [hy])) x c hc

theorem add_overlap_ink (ov : Nat) (l : List Str)
    (hl : ∀ x ∈ l, HasInk x) :
    ∀ c ∈ add_overlap ov l, HasInk c := by
  intro c hc
  cases l with
  | nil => simp [add_overlap] at hc
  | cons c0 rest =>
    rcases List.mem_cons.mp hc with rfl | hc
    · exact hl c (by simp)
    · exact add_overlap_go_ink ov rest (fun y hy => hl y (by simp [hy])) c0 c hc

theorem chunk_text_ink (tc : TextChunker) (text : Str) :
    ∀ c ∈ chunk_text tc text, HasInk c := by
  intro c hc
  unfold chunk_text at hc
  by_cases hcond : 0 < tc.chunk_overlap ∧ 1 < (rawChunks tc text).length
  · rw [if_pos hcond] at hc
    exact add_overlap_ink _ _ (rawChunks_ink tc text) c hc
  · rw [if_neg hcond] at hc
    exact rawChunks_ink tc text c hc

theorem add_overlap_go_length (ov : Nat) (l : List Str) :
    ∀ prev, (add_overlap_go ov prev l).length = l.length := by
  induction l with
  | nil => intro prev; rfl
  | cons c cs ih => intro prev; simp [add_overlap_go, ih c]

theorem add_overlap_length (ov : Nat) (l : List Str) :
    (add_overlap ov l).length = l.length := by
  cases l with
  | nil => rfl
  | cons c0 rest => simp [add_overlap, add_overlap_go_length]

theorem add_overlap_go_getD (ov : Nat) (l : List Str) :
    ∀ (prev : Str) (i : Nat), i < l.length →
      (add_overlap_go ov prev l).getD i [] =
        overlapText ov ((prev :: l).getD i []) ++ ' ' :: l.getD i [] := by
  induction l with
  | nil => intro prev i h; simp at h
  | cons c cs ih =>
    intro prev i h
    cases i with
    | zero => rfl
    | succ i =>
      simp only [add_overlap_go, List.getD_cons_succ]
      exact ih c i (by simp only [List.length_cons] at h; omega)

theorem overlapText_eq_drop (ov : Nat) (p : Str) :
    overlapText ov p = p.drop (p.length - ov) := by
  unfold overlapText
  split_ifs with h
  · rfl
  · have hz : p.length - ov = 0 := by omega
    simp [hz]

/-! ## Claims -/

/-- Claim C1 (code bug evidence): for whitespace-only input text the
ingestion pipeline `process_document` does NOT fail with `EmptyDocument`;
the translated source returns a success result with `chunks_created = 0`. -/
theorem C1_process_document_succeeds_on_blank_input :
    pyStrip ("   ".toList) = [] ∧
    process_document documentServiceChunker ("   ".toList) ("doc1".toList) =
      Except.ok ⟨"doc1".toList, 0, "success".toList⟩ :=
  ⟨rfl, rfl⟩

/-- Claim C2 (counterexample): with `chunk_size = 5`, `chunk_overlap = 4`
and input `"aaaa\n\nbb"`, `chunk_text` returns the chunk `"aaaa bb"` of
length 7 > 5, and that chunk is not a single sentence of the input — the
overlap step pushes chunks past `chunk_size`. -/
theorem C2_overlap_exceeds_chunk_size :
    "aaaa bb".toList ∈ chunk_text ⟨5, 4⟩ ("aaaa\n\nbb".toList) ∧
    5 < ("aaaa bb".toList).length ∧
    (∀ p ∈ splitNN ("aaaa\n\nbb".toList),
      "aaaa bb".toList ∉ split_into_sentences (pyStrip p)) ∧
    ∀ p ∈ splitNN ("aaaa\n\nbb".toList),
      ∀ s ∈ split_into_sentences (pyStrip p), s.length ≤ 5 := by
  decide

/-- Claim C2 (amended): when `chunk_overlap = 0` (equivalently, for the
pre-overlap chunk sequence), every chunk returned by `chunk_text` has
content length at most `chunk_size`, except chunks that are a single
sentence of the input (which may exceed it). -/
theorem C2_chunk_size_bound_preoverlap (tc : TextChunker) (text : Str)
    (h : tc.chunk_overlap = 0) :
    ∀ c ∈ chunk_text tc text,
      c.length ≤ tc.chunk_size ∨
        ∃ p ∈ splitNN text, c ∈ split_into_sentences (pyStrip p) := by
  intro c hc
  have hct : chunk_text tc text = rawChunks tc text := by
    unfold chunk_text
    rw [if_neg]
    rw [h]
    simp
  rw [hct] at hc
  exact rawChunks_size tc text c hc

theorem C2_chunk_size_bound_witness :
    (⟨5, 0⟩ : TextChunker).chunk_overlap = 0 ∧
    ∀ c ∈ chunk_text ⟨5, 0⟩ ("aaaa\n\nbb".toList),
      c.length ≤ (⟨5, 0⟩ : TextChunker).chunk_size ∨
        ∃ p ∈ splitNN ("aaaa\n\nbb".toList),
          c ∈ split_into_sentences (pyStrip p) :=
  ⟨rfl, C2_chunk_size_bound_preoverlap ⟨5, 0⟩ ("aaaa\n\nbb".toList) rfl⟩

/-- Claim C3 (counterexample): with `chunk_size = 5`, `chunk_overlap = 4`
and input `"aaaa\n\nbb\n\ncccc"` the returned sequence has 3 chunks, but
chunk 2 does not begin with the last `min(4, len(chunk[1]))` characters of
the *returned* chunk 1 followed by a space — the overlap is taken from the
pre-overlap chunk instead. -/
theorem C3_overlap_not_from_returned_chunk :
    2 < (chunk_text ⟨5, 4⟩ ("aaaa\n\nbb\n\ncccc".toList)).length ∧
    ¬ ((chunk_text ⟨5, 4⟩ ("aaaa\n\nbb\n\ncccc".toList)).getD 2 []).take
        (min 4 ((chunk_text ⟨5, 4⟩ ("aaaa\n\nbb\n\ncccc".toList)).getD 1 []).length + 1) =
      ((chunk_text ⟨5, 4⟩ ("aaaa\n\nbb\n\ncccc".toList)).getD 1 []).drop
          (((chunk_text ⟨5, 4⟩ ("aaaa\n\nbb\n\ncccc".toList)).getD 1 []).length - 4)
        ++ [' '] := by
  decide

/-- Claim C3 (amended): for `chunk_overlap = V > 0`, the returned sequence
has the same length as the pre-overlap sequence `rawChunks`, and each
returned chunk `i+1` equals the last `min(V, len(pre[i]))` characters of
the *pre-overlap* chunk `pre[i]`, then a single space, then `pre[i+1]`. -/
theorem C3_overlap_from_preoverlap_chunk (tc : TextChunker) (text : Str)
    (h1 : 0 < tc.chunk_overlap) (i : Nat)
    (h2 : i + 1 < (rawChunks tc text).length) :
    (chunk_text tc text).length = (rawChunks tc text).length ∧
    (chunk_text tc text).getD (i + 1) [] =
      ((rawChunks tc text).getD i []).drop
          (((rawChunks tc text).getD i []).length - tc.chunk_overlap)
        ++ ' ' :: (rawChunks tc text).getD (i + 1) [] := by
  have hlen : 1 < (rawChunks tc text).length := by omega
  have hct : chunk_text tc text = add_overlap tc.chunk_overlap (rawChunks tc text) := by
    unfold chunk_text
    rw [if_pos ⟨h1, hlen⟩]
  rw [hct]
  cases hl : rawChunks tc text with
  | nil =>
    rw [hl] at h2
    simp at h2
  | cons c0 rest =>
    rw [hl] at h2
    simp only [List.length_cons] at h2
    have hi : i < rest.length := by omega
    constructor
    · exact add_overlap_length tc.chunk_overlap (c0 :: rest)
    · simp only [add_overlap, List.getD_cons_succ]
      rw [add_overlap_go_getD tc.chunk_overlap rest c0 i hi, ← overlapText_eq_drop]

theorem C3_overlap_witness :
    0 < (⟨5, 4⟩ : TextChunker).chunk_overlap ∧
    0 + 1 < (rawChunks ⟨5, 4⟩ ("aaaa\n\nbb\n\ncccc".toList)).length ∧
    ((chunk_text ⟨5, 4⟩ ("aaaa\n\nbb\n\ncccc".toList)).length =
        (rawChunks ⟨5, 4⟩ ("aaaa\n\nbb\n\ncccc".toList)).length ∧
      (chunk_text ⟨5, 4⟩ ("aaaa\n\nbb\n\ncccc".toList)).getD (0 + 1) [] =
        ((rawChunks ⟨5, 4⟩ ("aaaa\n\nbb\n\ncccc".toList)).getD 0 []).drop
            (((rawChunks ⟨5, 4⟩ ("aaaa\n\nbb\n\ncccc".toList)).getD 0 []).length -
              (⟨5, 4⟩ : TextChunker).chunk_overlap)
          ++ ' ' :: (rawChunks ⟨5, 4⟩ ("aaaa\n\nbb\n\ncccc".toList)).getD (0 + 1) []) :=
  ⟨by decide, by decide,
    C3_overlap_from_preoverlap_chunk ⟨5, 4⟩ ("aaaa\n\nbb\n\ncccc".toList)
      (by decide) 0 (by decide)⟩

/-- Claim C4 (counterexample): for the empty text the estimator returns 0,
not `max(1, floor(len(text)/chunk_size)) = 1`. -/
theorem C4_empty_text_returns_zero :
    ¬ get_chunk_count ⟨1000, 200⟩ [] =
        max 1 ((List.length ([] : Str)) / 1000) := by
  decide

/-- Claim C4 (amended): for every non-empty text and positive configured
`chunk_size`, `get_chunk_count` returns `max(1, floor(len(text)/chunk_size))`
(for the empty text it returns 0 instead). -/
theorem C4_chunk_count_nonempty (tc : TextChunker) (text : Str)
    (h1 : text ≠ []) (_h2 : 0 < tc.chunk_size) :
    get_chunk_count tc text = max 1 (text.length / tc.chunk_size) := by
  unfold get_chunk_count
  rw [if_neg h1]

theorem C4_chunk_count_witness :
    ("a".toList ≠ [] ∧ 0 < (1000 : Nat)) ∧
    get_chunk_count ⟨1000, 200⟩ ("a".toList) =
      max 1 (("a".toList).length / 1000) :=
  ⟨⟨by decide, by decide⟩,
    C4_chunk_count_nonempty ⟨1000, 200⟩ ("a".toList) (by decide) (by decide)⟩

/-- Claim C5 (code bug evidence): the translated embedder silently returns
a zero-length vector (resp. a list of zero-length vectors) for every input
and never produces a `ModelUnavailable` error — its return type shows no
error can occur. -/
theorem C5_embedder_silently_returns_empty_vector :
    generate_embedding ("hello".toList) = [] ∧
    generate_embeddings_batch ["hello".toList] = [[]] :=
  ⟨rfl, rfl⟩

/-- Claim C6 (code bug evidence): a whitespace-only question passes the
request validation (`min_length=1`) and the retrieval pipeline
`query_documents` returns a success result instead of failing with
`InvalidQuery`. -/
theorem C6_query_succeeds_on_blank_question :
    queryRequestValid (" ".toList) 5 ∧
    pyStrip (" ".toList) = [] ∧
    query_documents (" ".toList) 5 = Except.ok ⟨" ".toList, [], todoAnswer⟩ :=
  ⟨by decide, rfl, rfl⟩

/-- Claim C7: batch embedding returns exactly one vector per input text,
in the input's order, and each entry equals the single-text embedding of
the corresponding input. -/
theorem C7_batch_agrees_with_single (texts : List Str) :
    (generate_embeddings_batch texts).length = texts.length ∧
    generate_embeddings_batch texts = texts.map generate_embedding := by
  constructor
  · simp [generate_embeddings_batch]
  · rfl

/-- Claim C8: `chunk_text` is deterministic — it is a pure function of the
input text and the `chunk_size`/`chunk_overlap` configuration, so equal
inputs and equal configurations give equal chunk sequences. -/
theorem C8_chunking_deterministic (tc1 tc2 : TextChunker) (t1 t2 : Str)
    (hc : tc1 = tc2) (ht : t1 = t2) :
    chunk_text tc1 t1 = chunk_text tc2 t2 := by
  rw [hc, ht]

theorem C8_chunking_deterministic_witness :
    (⟨1000, 200⟩ : TextChunker) = ⟨1000, 200⟩ ∧ "Hi".toList = "Hi".toList ∧
    chunk_text ⟨1000, 200⟩ ("Hi".toList) = chunk_text ⟨1000, 200⟩ ("Hi".toList) :=
  ⟨rfl, rfl, C8_chunking_deterministic ⟨1000, 200⟩ ⟨1000, 200⟩ _ _ rfl rfl⟩

/-- Claim C9: for every input that is empty or consists only of whitespace,
`chunk_text` returns the empty sequence (and, being a total function,
raises no error). -/
theorem C9_blank_input_empty_chunks (tc : TextChunker) (text : Str)
    (h : ∀ ch ∈ text, pyWS ch = true) :
    chunk_text tc text = [] := by
  have hd : text.dropWhile pyWS = [] := by
    induction text with
    | nil => rfl
    | cons c t ih =>
      rw [List.dropWhile_cons, if_pos (h c (by simp))]
      exact ih (fun x hx => h x (by simp [hx]))
  have hs : pyStrip text = [] := by
    unfold pyStrip
    rw [hd]
    rfl
  unfold chunk_text rawChunks
  rw [if_pos hs]
  simp [add_overlap]

theorem C9_blank_input_witness :
    (∀ ch ∈ " \t\n".toList, pyWS ch = true) ∧
    chunk_text ⟨1000, 200⟩ (" \t\n".toList) = [] :=
  ⟨by decide, C9_blank_input_empty_chunks ⟨1000, 200⟩ (" \t\n".toList) (by decide)⟩

/-- Claim C10: every chunk returned by `chunk_text` is non-empty and
contains at least one non-whitespace character. -/
theorem C10_chunks_have_content (tc : TextChunker) (text : Str) (c : Str)
    (hc : c ∈ chunk_text tc text) :
    c ≠ [] ∧ ∃ ch ∈ c, pyWS ch = false := by
  obtain ⟨ch, hm, hf⟩ := chunk_text_ink tc text c hc
  exact ⟨List.ne_nil_of_mem hm, ch, hm, hf⟩

theorem C10_chunks_have_content_witness :
    "Hi".toList ∈ chunk_text ⟨1000, 200⟩ ("Hi".toList) ∧
    ("Hi".toList ≠ [] ∧ ∃ ch ∈ "Hi".toList, pyWS ch = false) :=
  ⟨by decide, C10_chunks_have_content ⟨1000, 200⟩ ("Hi".toList) ("Hi".toList) (by decide)⟩

